import Mathlib

/-!
Verification development for the finop repository (Snowflake query-cost
dashboard).  The Python sources `app.py`, `app_old.py`, `query_optimizer.py`
and `snowflake_connector.py` are shallowly embedded below:

* the SQL table-reference extractor `extract_tables_from_sql` (identical in
  `app.py`, `app_old.py` and `query_optimizer.py`) is embedded as an
  executable scanner that reproduces the semantics of the six
  `re.findall` keyword patterns, the cleanup/filter logic and the final
  `sorted(list(set(...)))`;
* the cost-aggregation SQL of `get_expensive_queries` (three variants:
  `query_optimizer.py`, `app.py`, `app_old.py`) is embedded as list
  transformations over execution records;
* the Cortex-AI response extraction of `app.py` / `app_old.py` is embedded
  over a JSON value type, together with a model of
  `json.dumps(..., indent=2)`;
* `get_table_metadata` and the per-table metadata loop are embedded with an
  oracle standing for the INFORMATION_SCHEMA lookups.

Machine integers do not occur (Python ints are unbounded); money/cost columns
are exact rationals.  Character classes (`\w`, `\s`, `str.upper`, `IGNORECASE`)
are modelled at ASCII level, which is exact for all inputs appearing in the
claims and for the keyword alphabet of the patterns.
-/

/-! ### Section A: the table-reference extractor

Source: `query_optimizer.py` lines 145-180 (= `app.py` 180-206,
`app_old.py` 301-327).  The six patterns are
`FROM\s+([\w\.`"]+)`, `JOIN\s+...`, `INTO\s+...`, `UPDATE\s+...`,
`MERGE\s+INTO\s+...`, `TABLE\s+...`, matched case-insensitively, and the
captures are cleaned, filtered and returned as `sorted(list(set(...)))`. -/

/-- Python `\s` (ASCII range): space, tab, newline, carriage return,
vertical tab, form feed. -/
def isPySpace (c : Char) : Bool :=
  c = ' ' || c = '\t' || c = '\n' || c = '\r' || c = '\x0b' || c = '\x0c'

/-- Python `\w` (ASCII model): letters, digits, underscore. -/
def isWordChar (c : Char) : Bool :=
  c.isAlphanum || c = '_'

/-- The regex character class `[\w\.`"]` used by every table pattern. -/
def isClassChar (c : Char) : Bool :=
  isWordChar c || c = '.' || c = '`' || c = '"'

/-- Case-insensitive keyword matching: consume `kw` (given in lowercase) from
the front of `l`, comparing each text character lowercased (`re.IGNORECASE`).
Returns the remaining text on success. -/
def dropKeywordCI : List Char → List Char → Option (List Char)
  | [], l => some l
  | _ :: _, [] => none
  | k :: ks, c :: cs => if c.toLower = k then dropKeywordCI ks cs else none

/-- Match one anchored pattern (a nonempty sequence of keywords separated by
`\s+`, followed by `\s+` and a capture group `([\w\.`"]+)`) at the head of
`l`.  Greedy `\s+` and greedy capture are exact here because the whitespace
class and the capture class are disjoint, so the backtracking regex engine
behaves as maximal-munch.  Returns `(capture, rest-after-match)`. -/
def matchKeywordsAt : List (List Char) → List Char → Option (List Char × List Char)
  | [], _ => none
  | [kw], l =>
    match dropKeywordCI kw l with
    | none => none
    | some r1 =>
      if (r1.takeWhile isPySpace).isEmpty then none
      else
        let r2 := r1.dropWhile isPySpace
        let cap := r2.takeWhile isClassChar
        if cap.isEmpty then none
        else some (cap, r2.dropWhile isClassChar)
  | kw :: kw2 :: kws, l =>
    match dropKeywordCI kw l with
    | none => none
    | some r1 =>
      if (r1.takeWhile isPySpace).isEmpty then none
      else matchKeywordsAt (kw2 :: kws) (r1.dropWhile isPySpace)

/-- `re.findall` for one anchored pattern: scan left to right, take the
leftmost match, continue after its end (non-overlapping), collect the capture
groups.  `fuel` bounds the recursion; `findAllCI` supplies `l.length`, which
is sufficient because every step consumes at least one character. -/
def findAllAux (kws : List (List Char)) : Nat → List Char → List (List Char)
  | 0, _ => []
  | _ + 1, [] => []
  | fuel + 1, c :: rest =>
    match matchKeywordsAt kws (c :: rest) with
    | some (cap, r3) => cap :: findAllAux kws fuel r3
    | none => findAllAux kws fuel rest

/-- `re.findall(pattern, text, re.IGNORECASE)` for one keyword pattern. -/
def findAllCI (kws : List (List Char)) (l : List Char) : List (List Char) :=
  findAllAux kws l.length l

/-- The keyword skeletons of the six patterns, in source order
(`FROM`, `JOIN`, `INTO`, `UPDATE`, `MERGE INTO`, `TABLE`), lowercase. -/
def tableKeywordSkeletons : List (List (List Char)) :=
  [ [['f', 'r', 'o', 'm']],
    [['j', 'o', 'i', 'n']],
    [['i', 'n', 't', 'o']],
    [['u', 'p', 'd', 'a', 't', 'e']],
    [['m', 'e', 'r', 'g', 'e'], ['i', 'n', 't', 'o']],
    [['t', 'a', 'b', 'l', 'e']] ]

/-- All raw capture groups over all six patterns, in the order the Python
loop visits them (pattern-major, then left to right in the text). -/
def rawCaptures (sql : String) : List String :=
  (tableKeywordSkeletons.map (fun kws => (findAllCI kws sql.data).map String.mk)).flatten

/-- `l` with leading and trailing characters satisfying `p` removed
(Python `str.strip`). -/
def stripEnds {α : Type} (p : α → Bool) (l : List α) : List α :=
  ((l.dropWhile p).reverse.dropWhile p).reverse

/-- `match.strip().strip('`').strip('"').strip()` from the source. -/
def cleanTable (m : String) : String :=
  String.mk (stripEnds isPySpace
    (stripEnds (fun c => c = '"') (stripEnds (fun c => c = '`') (stripEnds isPySpace m.data))))

/-- Python `str.upper()` (ASCII model). -/
def strUpper (s : String) : String := String.mk (s.data.map Char.toUpper)

/-- Python `c in s` for a single character. -/
def strContainsChar (s : String) (c : Char) : Bool := decide (c ∈ s.data)

/-- Python `s.startswith('(')`. -/
def strStartsWithParen (s : String) : Bool :=
  match s.data with
  | [] => false
  | c :: _ => c = '('

/-- The keyword guard list of the source. -/
def sqlGuardKeywords : List String :=
  ["AS", "ON", "WHERE", "GROUP", "ORDER", "HAVING", "SELECT"]

/-- Python `s.split()`: split on whitespace runs, dropping empty pieces. -/
def pySplitWs (s : String) : List String :=
  ((List.splitOnP isPySpace s.data).filter (fun w => w ≠ [])).map String.mk

/-- Per-capture cleanup and filtering, lines 172-178 of `query_optimizer.py`.
Returns `some table` when a table name survives, `none` when the capture is
filtered out, and an `IndexError` (as `Except.error`) exactly where
`table.split()[0]` would raise on an empty word list. -/
def processMatch (m : String) : Except String (Option String) :=
  let table := cleanTable m
  if table ≠ "" ∧ strUpper table ∉ sqlGuardKeywords then
    let t2res : Except String String :=
      if strContainsChar table ' ' then
        match pySplitWs table with
        | [] => .error "IndexError: list index out of range"
        | w :: _ => .ok w
      else .ok table
    match t2res with
    | .error e => .error e
    | .ok t2 =>
      .ok (if t2 ≠ "" ∧ ¬ strStartsWithParen t2 then some t2 else none)
  else .ok none

/-- The `tables` set of the source, modelled as an insertion-ordered
duplicate-free list (Python builds a `set`; the final output is sorted, so
the intermediate order is irrelevant). -/
def collectTables (acc : List String) : List String → Except String (List String)
  | [] => .ok acc
  | m :: ms =>
    match processMatch m with
    | .error e => .error e
    | .ok none => collectTables acc ms
    | .ok (some t) => collectTables (if t ∈ acc then acc else acc ++ [t]) ms

/-- Lexicographic comparison of character lists by code point, the order
Python uses for `sorted` on `str`. -/
def charListLe : List Char → List Char → Bool
  | [], _ => true
  | _ :: _, [] => false
  | a :: as, b :: bs => if a = b then charListLe as bs else decide (a < b)

/-- `a <= b` for strings, by code point. -/
def strLeB (a b : String) : Bool := charListLe a.data b.data

/-- The order relation used for the final `sorted(...)`. -/
def strLe (a b : String) : Prop := strLeB a b = true

instance : DecidableRel strLe := fun x y => inferInstanceAs (Decidable (strLeB x y = true))

/-- `extract_tables_from_sql` (identical in all three source files).  An
`Except.error` marks the only operation in the source that could raise
(`table.split()[0]`); the totality theorem shows it never fires. -/
def extract_tables_from_sql (sql_text : String) : Except String (List String) :=
  match collectTables [] (rawCaptures sql_text) with
  | .error e => .error e
  | .ok tables => .ok (List.insertionSort strLe tables)

/-! ### Section B: JSON values, `json.dumps(..., indent=2)`, the Cortex-AI
response extraction, and the optimization prompt builder

The Cortex response in `app.py` (`call_cortex_ai`, lines 412-436) and
`app_old.py` (lines 542-569) is a decoded JSON value: a mutual inductive
keeps every definition structurally recursive (hence kernel-computable).
A string payload that is itself valid JSON is modelled as the decoded value
(`json.loads` succeeds); a plain non-JSON string stays a `jstr` (the
`except: pass` keeps it a string). -/

mutual
inductive JVal where
  | jnull : JVal
  | jbool : Bool → JVal
  | jnum : Int → JVal
  | jstr : String → JVal
  | jarr : JArr → JVal
  | jobj : JObj → JVal
inductive JArr where
  | anil : JArr
  | acons : JVal → JArr → JArr
inductive JObj where
  | onil : JObj
  | ocons : String → JVal → JObj → JObj
end

/-- `2*lvl` spaces, the indentation prefix of `json.dumps(..., indent=2)`. -/
def jIndent (lvl : Nat) : String := String.mk (List.replicate (2 * lvl) ' ')

/-- JSON string-literal escaping (the escapes relevant to the embedded
values; further control-character escapes of the Python encoder never arise
in the claims). -/
def jEscapeChar (c : Char) : String :=
  if c = '"' then "\\\""
  else if c = '\\' then "\\\\"
  else if c = '\n' then "\\n"
  else if c = '\t' then "\\t"
  else if c = '\r' then "\\r"
  else String.mk [c]

/-- A JSON string literal. -/
def jstrLit (s : String) : String := "\"" ++ String.join (s.data.map jEscapeChar) ++ "\""

mutual
/-- `json.dumps(value, indent=2)`: containers open with a newline, every
element sits on its own line at the next indentation level, separated by
`,\n`, and the closer is indented at the container's level.  Empty
containers print without newlines, as in Python. -/
def jsonDumps (lvl : Nat) : JVal → String
  | .jnull => "null"
  | .jbool b => if b then "true" else "false"
  | .jnum n => toString n
  | .jstr s => jstrLit s
  | .jarr .anil => "[]"
  | .jarr (.acons v rest) =>
    "[\n" ++ jsonDumpsItems (lvl + 1) (.acons v rest) ++ "\n" ++ jIndent lvl ++ "]"
  | .jobj .onil => "\x7b\x7d"
  | .jobj (.ocons k v rest) =>
    "\x7b\n" ++ jsonDumpsFields (lvl + 1) (.ocons k v rest) ++ "\n" ++ jIndent lvl ++ "\x7d"
/-- The `,\n`-separated item lines of a nonempty array. -/
def jsonDumpsItems (lvl : Nat) : JArr → String
  | .anil => ""
  | .acons v .anil => jIndent lvl ++ jsonDumps lvl v
  | .acons v (.acons v2 rest) =>
    jIndent lvl ++ jsonDumps lvl v ++ ",\n" ++ jsonDumpsItems lvl (.acons v2 rest)
/-- The `,\n`-separated `"key": value` lines of a nonempty object. -/
def jsonDumpsFields (lvl : Nat) : JObj → String
  | .onil => ""
  | .ocons k v .onil => jIndent lvl ++ jstrLit k ++ ": " ++ jsonDumps lvl v
  | .ocons k v (.ocons k2 v2 rest) =>
    jIndent lvl ++ jstrLit k ++ ": " ++ jsonDumps lvl v ++ ",\n" ++
      jsonDumpsFields lvl (.ocons k2 v2 rest)
end

/-- Python dict key lookup (`d[k]` / `k in d`); keys are unique in decoded
JSON, so first-match lookup is exact. -/
def jlookup : JObj → String → Option JVal
  | .onil, _ => none
  | .ocons k v rest, key => if k = key then some v else jlookup rest key

/-- Python `str(...)` on a decoded JSON value, used only on the final
fallback path (`return str(response)`), which no claim exercises for
containers; container rendering is approximated by the JSON dump. -/
def pyStr : JVal → String
  | .jstr s => s
  | .jnull => "None"
  | .jbool true => "True"
  | .jbool false => "False"
  | .jnum n => toString n
  | .jarr a => jsonDumps 0 (.jarr a)
  | .jobj o => jsonDumps 0 (.jobj o)

/-- The response-shape extraction of `app.py` `call_cortex_ai`
(lines 412-436): bare string returned as is; a dict is probed for
`choices[0].message.content`, then top-level `content`, then serialized
with `json.dumps(response, indent=2, ensure_ascii=False)`; anything else
goes through `str(response)`.  (When `choices` holds a non-dict first
element or `message` is not a dict, Python falls through to the same
fallbacks.) -/
def extractCortexApp (response : JVal) : JVal :=
  match response with
  | .jstr s => .jstr s
  | .jobj o =>
    let viaChoices : Option JVal :=
      match jlookup o "choices" with
      | some (.jarr (.acons c _)) =>
        match c with
        | .jobj co =>
          match jlookup co "message" with
          | some (.jobj mo) => jlookup mo "content"
          | _ => none
        | _ => none
      | _ => none
    match viaChoices with
    | some v => v
    | none =>
      match jlookup o "content" with
      | some v => v
      | none => .jstr (jsonDumps 0 response)
  | v => .jstr (pyStr v)

/-- The richer response-shape extraction of `app_old.py` (lines 542-569):
bare string; `choices[0].message.content`; `choices[0].text`; top-level
`content`; top-level `text`; `json.dumps` fallback; `str` fallback. -/
def extractCortexAppOld (response : JVal) : JVal :=
  match response with
  | .jstr s => .jstr s
  | .jobj o =>
    let viaChoices : Option JVal :=
      match jlookup o "choices" with
      | some (.jarr (.acons c _)) =>
        match c with
        | .jobj co =>
          match jlookup co "message" with
          | some (.jobj mo) =>
            match jlookup mo "content" with
            | some v => some v
            | none => jlookup co "text"
          | _ => jlookup co "text"
        | _ => none
      | _ => none
    match viaChoices with
    | some v => v
    | none =>
      match jlookup o "content" with
      | some v => v
      | none =>
        match jlookup o "text" with
        | some v => v
        | none => .jstr (jsonDumps 0 response)
  | v => .jstr (pyStr v)

/-- The response value `{"choices": [{"text": "hello"}]}`. -/
def choicesTextResponse : JVal :=
  .jobj (.ocons "choices"
    (.jarr (.acons (.jobj (.ocons "text" (.jstr "hello") .onil)) .anil)) .onil)

/-- `build_optimization_prompt` from `query_optimizer.py` lines 327-386: the
f-string template with the SQL text in a fenced block and the two
`json.dumps(..., indent=2, default=str)` serializations. -/
def build_optimization_prompt (query_text : String)
    (execution_metadata tables_metadata : JVal) : String :=
  "You are an top-notch expert in SQL query optimization on Snowflake. Your goal is to provide the best possible optimization suggestions for the given SQL query.\n\nAnalyze the following SQL query and provide detailed optimization suggestions.\n\n## SQL query to analyze:\n\n```sql\n" ++
    query_text ++
    "\n```\n\n## Execution metadata:\n\n" ++
    jsonDumps 0 execution_metadata ++
    "\n\n## Metadata of tables used:\n\n" ++
    jsonDumps 0 tables_metadata ++
    "\n\n## Instructions:\n\nProvide a complete analysis with:\n\n1. **SQL Optimizations**:\n   - Query rewrite suggestions\n   - JOIN improvements\n   - WHERE clause optimization\n   - Use of indexes or clustering keys\n   - CTE or subquery suggestions\n\n2. **Warehouse-related optimizations**:\n   - Recommended warehouse size\n   - Use of multi-clustering\n   - Auto-suspend and auto-resume\n   - Concurrency management\n\n3. **General optimizations**:\n   - Execution time improvement\n   - Cost reduction\n   - Snowflake best practices\n\nFormat your response clearly and structured with well-defined sections in english."

/-! ### Section C: the Cost Aggregator

The source issues SQL against `SNOWFLAKE.ACCOUNT_USAGE.QUERY_HISTORY`; the
view is embedded as a `List ExecRecord` and `DATEADD(DAY, -days,
CURRENT_TIMESTAMP())` as an abstract `cutoff` timestamp (timestamps are
totally ordered integers).  Two aggregation variants are embedded:

* `qoAggregate` — `query_optimizer.py` `get_expensive_queries` (lines
  40-97): `GROUP BY ALL` groups by every non-aggregated select column
  `(warehouse_name, warehouse_size, database_name, schema_name,
  query_text, user_name)`, `sample_query_id = max(query_id)`,
  `rank = ROW_NUMBER() OVER (PARTITION BY warehouse_name ORDER BY
  sum(total_elapsed_time) DESC)`, keep `rank <= 30`, order by
  `cost_factor DESC`;
* `appAggregate` — `app.py` `get_expensive_queries` (lines 37-87):
  `GROUP BY 1,2,3` = `(warehouse_name, warehouse_size, user_name)`,
  `sample_query_id` from a correlated subquery
  (`ORDER BY total_elapsed_time DESC LIMIT 1` over the
  `(warehouse_name, user_name)` partition of the history), keep
  `rank <= 20`, order by `duration_seconds DESC`.

SQL leaves the order of ties in `ROW_NUMBER`/`LIMIT 1` unspecified; the
embedding fixes the stable convention (first record in input order), the
convention the spec documents.  The rational-valued output columns
(`duration_seconds`, `duration_hours`, `cost_factor`) are pure functions of
a group's integer aggregates and are embedded as such; the final `ORDER BY`
is embedded through an equivalent integer sort key, with the equivalence to
the rational columns proved (`qoOrder_iff_cost_factor`,
`appOrder_iff_duration_seconds`). -/

/-- One row of `QUERY_HISTORY` (the columns the aggregation reads;
`warehouse_name` is nullable). -/
structure ExecRecord where
  warehouse_name : Option String
  warehouse_size : String
  database_name : String
  schema_name : String
  user_name : String
  query_id : String
  query_text : String
  total_elapsed_time : Int
  execution_time : Int
  execution_status : String
  start_time : Int
  end_time : Int
  bytes_spilled_to_local_storage : Int
  bytes_spilled_to_remote_storage : Int
deriving DecidableEq

/-- The warehouse-size weight CASE expression (identical in all variants);
unknown sizes fall to the ELSE branch, weight 1. -/
def sizeWeight (warehouse_size : String) : Int :=
  if warehouse_size = "X-Small" then 1
  else if warehouse_size = "Small" then 2
  else if warehouse_size = "Medium" then 4
  else if warehouse_size = "Large" then 8
  else if warehouse_size = "X-Large" then 16
  else if warehouse_size = "2X-Large" then 32
  else 1

/-- `total_elapsed_time / 1000 AS duration_seconds` (SQL division on these
operands is exact decimal division). -/
def duration_seconds (t : Int) : ℚ := (t : ℚ) / 1000

/-- `total_elapsed_time / 1000 / 60 / 24 AS duration_hours` — the divisor
chain of `query_optimizer.py` line 82 and `app.py` line 72 (total divisor
1 440 000). -/
def duration_hours (t : Int) : ℚ := (t : ℚ) / 1000 / 60 / 24

/-- `cost_factor` of `query_optimizer.py` lines 83-92 and `app.py`
lines 73-82: the `duration_hours` chain times the size weight. -/
def cost_factor (t : Int) (size : String) : ℚ :=
  (t : ℚ) / 1000 / 60 / 24 * (sizeWeight size : ℚ)

/-- `total_elapsed_time / 1000 / 60 / 60 AS duration_hours` — the divisor
chain of `app_old.py` line 189 (total divisor 3 600 000, true hours). -/
def duration_hours_old (t : Int) : ℚ := (t : ℚ) / 1000 / 60 / 60

/-- `cost_factor` of `app_old.py` lines 190-199. -/
def cost_factor_old (t : Int) (size : String) : ℚ :=
  (t : ℚ) / 1000 / 60 / 60 * (sizeWeight size : ℚ)

/-- Modelled from the spec: the cost-model formula of §4.1,
`cost_factor = (total_elapsed_time / 3_600_000) × size_weight(size)`,
stated for comparison with the formulas the code computes. -/
def specCostFactor (t : Int) (size : String) : ℚ :=
  (t : ℚ) / 3600000 * (sizeWeight size : ℚ)

/-- The WHERE filter of `query_optimizer.py` (non-null warehouse,
successful, strictly positive execution time, inside the window). -/
def qoFilter (records : List ExecRecord) (cutoff : Int) : List ExecRecord :=
  records.filter (fun r => r.warehouse_name.isSome &&
    decide (r.execution_status = "SUCCESS") &&
    decide (r.execution_time > 0) && decide (r.start_time > cutoff))

/-- The WHERE filter of `app.py` (no `execution_time` condition). -/
def appFilter (records : List ExecRecord) (cutoff : Int) : List ExecRecord :=
  records.filter (fun r => r.warehouse_name.isSome &&
    decide (r.execution_status = "SUCCESS") && decide (r.start_time > cutoff))

/-- The `GROUP BY ALL` key of `query_optimizer.py`: every non-aggregated
select column. -/
def qoKey (r : ExecRecord) :
    Option String × String × String × String × String × String :=
  (r.warehouse_name, r.warehouse_size, r.database_name, r.schema_name,
    r.query_text, r.user_name)

/-- The `GROUP BY 1, 2, 3` key of `app.py`. -/
def appKey (r : ExecRecord) : Option String × String × String :=
  (r.warehouse_name, r.warehouse_size, r.user_name)

/-- `sum(total_elapsed_time)`. -/
def sumElapsed (l : List ExecRecord) : Int :=
  l.foldl (fun acc r => acc + r.total_elapsed_time) 0

/-- `sum(bytes_spilled_to_local_storage)`. -/
def sumSpilledLocal (l : List ExecRecord) : Int :=
  l.foldl (fun acc r => acc + r.bytes_spilled_to_local_storage) 0

/-- `sum(bytes_spilled_to_remote_storage)`. -/
def sumSpilledRemote (l : List ExecRecord) : Int :=
  l.foldl (fun acc r => acc + r.bytes_spilled_to_remote_storage) 0

/-- SQL `MAX` over strings (binary collation = code-point order). -/
def strMax (a b : String) : String := if charListLe a.data b.data then b else a

/-- `max(query_id)` over a (nonempty) group. -/
def maxQueryId : List ExecRecord → String
  | [] => ""
  | r :: rs => rs.foldl (fun m x => strMax m x.query_id) r.query_id

/-- `min(start_time)`. -/
def minStartTime : List ExecRecord → Int
  | [] => 0
  | r :: rs => rs.foldl (fun m x => min m x.start_time) r.start_time

/-- `max(start_time)` — the source aliases this column `max_end_time`
even though it aggregates `start_time` (`query_optimizer.py` line 51). -/
def maxStartTime : List ExecRecord → Int
  | [] => 0
  | r :: rs => rs.foldl (fun m x => max m x.start_time) r.start_time

/-- `ORDER BY total_elapsed_time DESC LIMIT 1` with the stable (first in
input order) tie convention: keep the current best on ties, replace it only
on a strictly larger elapsed time. -/
def pickSample : ExecRecord → List ExecRecord → ExecRecord
  | best, [] => best
  | best, r :: rs =>
    pickSample (if r.total_elapsed_time > best.total_elapsed_time then r else best) rs

/-- The representative record of a record list (`none` on an empty list,
SQL's empty `LIMIT 1` result). -/
def sampleRecord : List ExecRecord → Option ExecRecord
  | [] => none
  | r :: rs => some (pickSample r rs)

/-- Running maximum of `total_elapsed_time`, in step with `pickSample`. -/
def maxElapsedFrom : Int → List ExecRecord → Int
  | m, [] => m
  | m, r :: rs => maxElapsedFrom (max m r.total_elapsed_time) rs

/-- The maximum `total_elapsed_time` of a list (0 on the empty list, which
`sampleRecord` never reaches). -/
def maxElapsedOf : List ExecRecord → Int
  | [] => 0
  | r :: rs => maxElapsedFrom r.total_elapsed_time rs

/-- One output row of `query_optimizer.py` `get_expensive_queries`.
`sample_query_text` is a grouping column there (`query_text AS
sample_query_text` under `GROUP BY ALL`); the rational columns
(`duration_seconds`, `duration_hours`, `cost_factor`, `cost_per_query`)
are the functions above applied to `total_elapsed_time`, `warehouse_size`
and `cnt`. -/
structure QoGroup where
  warehouse_name : Option String
  warehouse_size : String
  database_name : String
  schema_name : String
  sample_query_text : String
  user_name : String
  sample_query_id : String
  min_start_time : Int
  max_end_time : Int
  spilled_local : Int
  spilled_remote : Int
  total_elapsed_time : Int
  cnt : Nat
  rank : Nat
deriving DecidableEq

/-- The records of one `query_optimizer.py` group. -/
def qoMembers (records : List ExecRecord) (cutoff : Int)
    (k : Option String × String × String × String × String × String) :
    List ExecRecord :=
  (qoFilter records cutoff).filter (fun r => decide (qoKey r = k))

/-- Build one `query_optimizer.py` group (rank filled in later). -/
def qoBuildGroup (records : List ExecRecord) (cutoff : Int)
    (k : Option String × String × String × String × String × String) : QoGroup :=
  let ms := qoMembers records cutoff k
  { warehouse_name := k.1, warehouse_size := k.2.1, database_name := k.2.2.1,
    schema_name := k.2.2.2.1, sample_query_text := k.2.2.2.2.1,
    user_name := k.2.2.2.2.2,
    sample_query_id := maxQueryId ms,
    min_start_time := minStartTime ms, max_end_time := maxStartTime ms,
    spilled_local := sumSpilledLocal ms, spilled_remote := sumSpilledRemote ms,
    total_elapsed_time := sumElapsed ms, cnt := ms.length, rank := 0 }

/-- `ROW_NUMBER() OVER (PARTITION BY warehouse_name ORDER BY key DESC)`
with the stable tie convention: the rank of the element at position `i` is
one plus the number of partition members that either have a strictly larger
key or an equal key at an earlier position. -/
def rowNumberDesc {G : Type} (wh : G → Option String) (key : G → Int)
    (gs : List G) (i : Nat) (g : G) : Nat :=
  1 + (gs.enum.countP (fun p => decide (wh p.2 = wh g) &&
        (decide (key p.2 > key g) ||
         (decide (key p.2 = key g) && decide (p.1 < i)))))

/-- Assign the window ranks over a group list. -/
def assignRanks {G : Type} (wh : G → Option String) (key : G → Int)
    (setRank : G → Nat → G) (gs : List G) : List G :=
  gs.enum.map (fun p => setRank p.2 (rowNumberDesc wh key gs p.1 p.2))

/-- Integer sort key equivalent to `ORDER BY cost_factor DESC` for the
`query_optimizer.py` final select: `cost_factor` divides
`total_elapsed_time × weight` by the fixed positive constant 1 440 000, so
comparing the products compares the cost factors
(`qoOrder_iff_cost_factor`). -/
def qoOrderKey (g : QoGroup) : Int :=
  g.total_elapsed_time * sizeWeight g.warehouse_size

/-- The final `ORDER BY cost_factor DESC` relation. -/
def qoOrder (g1 g2 : QoGroup) : Prop := qoOrderKey g2 ≤ qoOrderKey g1

instance : DecidableRel qoOrder := fun g1 g2 =>
  inferInstanceAs (Decidable (qoOrderKey g2 ≤ qoOrderKey g1))

/-- `get_expensive_queries` of `query_optimizer.py`: filter, group by all,
aggregate, rank per warehouse partition, keep `rank <= 30`, order by
`cost_factor DESC`. -/
def qoAggregate (records : List ExecRecord) (cutoff : Int) : List QoGroup :=
  let keys := ((qoFilter records cutoff).map qoKey).dedup
  let pre := keys.map (qoBuildGroup records cutoff)
  let ranked := assignRanks (fun g => g.warehouse_name)
    (fun g => g.total_elapsed_time) (fun g n => { g with rank := n }) pre
  let kept := ranked.filter (fun g => decide (g.rank ≤ 30))
  List.insertionSort qoOrder kept

/-- One output row of `app.py` `get_expensive_queries`. -/
structure AppGroup where
  warehouse_name : Option String
  warehouse_size : String
  user_name : String
  cnt : Nat
  sample_query_id : Option String
  total_elapsed_time : Int
  rank : Nat
deriving DecidableEq

/-- The records of one `app.py` group. -/
def appMembers (records : List ExecRecord) (cutoff : Int)
    (k : Option String × String × String) : List ExecRecord :=
  (appFilter records cutoff).filter (fun r => decide (appKey r = k))

/-- The record set the correlated subquery of `app.py` (lines 46-53) ranges
over for a group: same `warehouse_name` and `user_name` (the subquery does
not constrain `warehouse_size`), successful, inside the window. -/
def appPartition (records : List ExecRecord) (cutoff : Int)
    (wn : Option String) (user : String) : List ExecRecord :=
  records.filter (fun r => decide (r.warehouse_name = wn) &&
    decide (r.user_name = user) && decide (r.execution_status = "SUCCESS") &&
    decide (r.start_time > cutoff))

/-- Build one `app.py` group (rank filled in later). -/
def appBuildGroup (records : List ExecRecord) (cutoff : Int)
    (k : Option String × String × String) : AppGroup :=
  let ms := appMembers records cutoff k
  { warehouse_name := k.1, warehouse_size := k.2.1, user_name := k.2.2,
    cnt := ms.length, total_elapsed_time := sumElapsed ms,
    sample_query_id :=
      (sampleRecord (appPartition records cutoff k.1 k.2.2)).map
        (fun r => r.query_id),
    rank := 0 }

/-- Integer sort key equivalent to `ORDER BY duration_seconds DESC`
(`duration_seconds` divides `total_elapsed_time` by the fixed positive
constant 1000; `appOrder_iff_duration_seconds`). -/
def appOrderKey (g : AppGroup) : Int := g.total_elapsed_time

/-- The final `ORDER BY duration_seconds DESC` relation of `app.py`. -/
def appOrder (g1 g2 : AppGroup) : Prop := appOrderKey g2 ≤ appOrderKey g1

instance : DecidableRel appOrder := fun g1 g2 =>
  inferInstanceAs (Decidable (appOrderKey g2 ≤ appOrderKey g1))

/-- `get_expensive_queries` of `app.py`: filter, group by
`(warehouse_name, warehouse_size, user_name)`, aggregate with the
correlated-subquery sample, rank per warehouse partition, keep
`rank <= 20`, order by `duration_seconds DESC`. -/
def appAggregate (records : List ExecRecord) (cutoff : Int) : List AppGroup :=
  let keys := ((appFilter records cutoff).map appKey).dedup
  let pre := keys.map (appBuildGroup records cutoff)
  let ranked := assignRanks (fun g => g.warehouse_name)
    (fun g => g.total_elapsed_time) (fun g n => { g with rank := n }) pre
  let kept := ranked.filter (fun g => decide (g.rank ≤ 20))
  List.insertionSort appOrder kept

/-! ### Section D: the Metadata Assembler

`get_table_metadata` (`query_optimizer.py` lines 182-325; the `app.py`
version at lines 208-342 is the same control flow with `database`/`schema`
defaults fixed to `None`) and the per-table loop of `app.py` lines 544-547.
The three INFORMATION_SCHEMA lookups are abstracted as an oracle from the
resolved `(database?, schema?, table)` triple to either a row list or a
raised exception; the choice among the three SQL text variants (qualified /
schema-only / bare), driven by Python truthiness of `database` and
`schema`, only changes the SQL text handed to the same oracle. -/

/-- One result row, as the `to_dict('records')` dictionaries. -/
abbrev CatalogRow := List (String × String)

/-- The external schema-catalog collaborator: connection state plus the
three lookups (columns, table statistics, constraints), each either
returning rows or raising. -/
structure CatalogOracle where
  connected : Bool
  columnsQ : Option String → Option String → String → Except String (List CatalogRow)
  statsQ : Option String → Option String → String → Except String (List CatalogRow)
  keysQ : Option String → Option String → String → Except String (List CatalogRow)

/-- The assembled per-table metadata dictionary: a key is present
(`some`) exactly when the Python dict has it. -/
structure TableMetadata where
  columns : Option (List CatalogRow) := none
  statistics : Option CatalogRow := none
  constraints : Option (List CatalogRow) := none
  error : Option String := none
deriving DecidableEq

/-- Python `table_name.split('.')` (keeps empty pieces, as `str.split` with
an explicit separator does). -/
def pySplitDots (s : String) : List String :=
  (List.splitOnP (fun c => decide (c = '.')) s.data).map String.mk

/-- The name-resolution prelude of `get_table_metadata`: exactly three
parts unpack to `(database, schema, table)`; exactly two parts take the
caller's database default; any other count (one part, or four and more)
keeps the whole name as the table and both defaults. -/
def resolveTableName (table_name : String) (db_name schema_name : Option String) :
    Option String × Option String × String :=
  match pySplitDots table_name with
  | [d, s, t] => (some d, some s, t)
  | [s, t] => (db_name, some s, t)
  | _ => (db_name, schema_name, table_name)

/-- `get_table_metadata` (`query_optimizer.py`): no connection yields the
bare error record; otherwise the three lookups run in order inside one
`try`, so the first raised exception stops the remaining lookups, records
`error` with the exception text, and keeps every field gathered before it
(`statistics` takes the first row, or `{}` when the lookup returns no
rows). -/
def get_table_metadata (o : CatalogOracle) (table_name : String)
    (db_name schema_name : Option String) : TableMetadata :=
  let dst := resolveTableName table_name db_name schema_name
  if o.connected = false then { error := some "No active connection" }
  else
    match o.columnsQ dst.1 dst.2.1 dst.2.2 with
    | .error e => { error := some e }
    | .ok colrows =>
      match o.statsQ dst.1 dst.2.1 dst.2.2 with
      | .error e => { columns := some colrows, error := some e }
      | .ok strows =>
        match o.keysQ dst.1 dst.2.1 dst.2.2 with
        | .error e =>
          { columns := some colrows, statistics := some (strows.head?.getD []),
            error := some e }
        | .ok keyrows =>
          { columns := some colrows, statistics := some (strows.head?.getD []),
            constraints := some keyrows }

/-- The per-table loop of `app.py` (lines 544-547):
`tables_metadata[table] = get_table_metadata(table, conn)` for each
extracted table, with no database/schema defaults. -/
def assembleMetadata (o : CatalogOracle) (tables : List String) :
    List (String × TableMetadata) :=
  tables.map (fun t => (t, get_table_metadata o t none none))

/-! ### Concrete execution records used by counterexamples and witnesses -/

/-- A successful execution record inside the lookback window. -/
def cxA : ExecRecord :=
  { warehouse_name := some "WH", warehouse_size := "Large", database_name := "DB",
    schema_name := "SCH", user_name := "alice", query_id := "QA",
    query_text := "SELECT * FROM t", total_elapsed_time := 100,
    execution_time := 10, execution_status := "SUCCESS", start_time := 5,
    end_time := 6, bytes_spilled_to_local_storage := 0,
    bytes_spilled_to_remote_storage := 0 }

/-- Same group key as `cxA` in every variant, smaller elapsed time, larger
query id. -/
def cxB : ExecRecord := { cxA with query_id := "QB", total_elapsed_time := 50 }

/-- Same as `cxA` except for `warehouse_size` (and a fresh id). -/
def cxSizeSplit : ExecRecord := { cxA with warehouse_size := "Small", query_id := "Q3" }

/-- Same as `cxA` except for `query_text` (and a fresh id). -/
def cxTextSplit : ExecRecord := { cxA with query_text := "SELECT 2", query_id := "Q4" }

/-- The single record of the C2 witness run. -/
def w2r : ExecRecord :=
  { warehouse_name := some "WH", warehouse_size := "Large", database_name := "DB",
    schema_name := "SCH", user_name := "alice", query_id := "Q1",
    query_text := "SELECT 1", total_elapsed_time := 7200000,
    execution_time := 10, execution_status := "SUCCESS", start_time := 5,
    end_time := 6, bytes_spilled_to_local_storage := 0,
    bytes_spilled_to_remote_storage := 0 }

/-- The group `appAggregate [w2r] 0` produces. -/
def w2g : AppGroup :=
  { warehouse_name := some "WH", warehouse_size := "Large", user_name := "alice",
    cnt := 1, sample_query_id := some "Q1", total_elapsed_time := 7200000,
    rank := 1 }

/-! ### Section A': lemmas about the extractor -/

theorem length_dropWhile_le {α : Type} (p : α → Bool) :
    ∀ l : List α, (l.dropWhile p).length ≤ l.length := by
  intro l
  induction l with
  | nil => simp
  | cons a t ih =>
    by_cases h : p a
    · simp only [List.dropWhile_cons, h, if_true]
      exact Nat.le_succ_of_le ih
    · simp [List.dropWhile_cons, h]

theorem length_dropWhile_lt {α : Type} (p : α → Bool) (l : List α)
    (h : (l.takeWhile p).isEmpty = false) : (l.dropWhile p).length < l.length := by
  cases l with
  | nil => simp [List.takeWhile] at h
  | cons a t =>
    by_cases hp : p a
    · simp only [List.dropWhile_cons, hp, if_true, List.length_cons]
      exact Nat.lt_succ_of_le (length_dropWhile_le p t)
    · simp [List.takeWhile_cons, hp] at h

theorem dropKeywordCI_length :
    ∀ (kw l r : List Char), dropKeywordCI kw l = some r → r.length ≤ l.length
  | [], l, r => by
    intro h
    simp only [dropKeywordCI] at h
    cases h
    exact Nat.le_refl _
  | _ :: _, [], r => by intro h; simp [dropKeywordCI] at h
  | k :: ks, c :: cs, r => by
    intro h
    simp only [dropKeywordCI] at h
    split at h
    · exact Nat.le_succ_of_le (dropKeywordCI_length ks cs r h)
    · exact absurd h (by simp)

theorem matchKeywordsAt_rest_lt :
    ∀ (kws : List (List Char)) (l cap r3 : List Char),
      matchKeywordsAt kws l = some (cap, r3) → r3.length < l.length
  | [], l, cap, r3 => by intro h; simp [matchKeywordsAt] at h
  | [kw], l, cap, r3 => by
    intro h
    simp only [matchKeywordsAt] at h
    split at h
    · exact absurd h (by simp)
    · rename_i r1 hdk
      split at h
      · exact absurd h (by simp)
      · rename_i hsp
        split at h
        · exact absurd h (by simp)
        · rename_i hcap
          simp only [Option.some.injEq, Prod.mk.injEq] at h
          obtain ⟨hcap2, hr3⟩ := h
          subst hr3
          have h1 : r1.length ≤ l.length := dropKeywordCI_length kw l r1 hdk
          have h2 : (r1.dropWhile isPySpace).length < r1.length :=
            length_dropWhile_lt isPySpace r1 (by simpa using hsp)
          have h3 : ((r1.dropWhile isPySpace).dropWhile isClassChar).length ≤
              (r1.dropWhile isPySpace).length := length_dropWhile_le _ _
          omega
  | kw :: kw2 :: kws, l, cap, r3 => by
    intro h
    simp only [matchKeywordsAt] at h
    split at h
    · exact absurd h (by simp)
    · rename_i r1 hdk
      split at h
      · exact absurd h (by simp)
      · rename_i hsp
        have h1 : r1.length ≤ l.length := dropKeywordCI_length kw l r1 hdk
        have h2 : (r1.dropWhile isPySpace).length < r1.length :=
          length_dropWhile_lt isPySpace r1 (by simpa using hsp)
        have := matchKeywordsAt_rest_lt (kw2 :: kws) (r1.dropWhile isPySpace) cap r3 h
        omega

theorem matchKeywordsAt_cap_classChar :
    ∀ (kws : List (List Char)) (l cap r3 : List Char),
      matchKeywordsAt kws l = some (cap, r3) → ∀ c ∈ cap, isClassChar c = true
  | [], l, cap, r3 => by intro h; simp [matchKeywordsAt] at h
  | [kw], l, cap, r3 => by
    intro h
    simp only [matchKeywordsAt] at h
    split at h
    · exact absurd h (by simp)
    · rename_i r1 hdk
      split at h
      · exact absurd h (by simp)
      · split at h
        · exact absurd h (by simp)
        · simp only [Option.some.injEq, Prod.mk.injEq] at h
          obtain ⟨hcap2, hr3⟩ := h
          subst hcap2
          intro c hc
          exact List.mem_takeWhile_imp hc
  | kw :: kw2 :: kws, l, cap, r3 => by
    intro h
    simp only [matchKeywordsAt] at h
    split at h
    · exact absurd h (by simp)
    · rename_i r1 hdk
      split at h
      · exact absurd h (by simp)
      · exact matchKeywordsAt_cap_classChar (kw2 :: kws) (r1.dropWhile isPySpace) cap r3 h

theorem findAllAux_mem_classChar (kws : List (List Char)) :
    ∀ (fuel : Nat) (l m : List Char), m ∈ findAllAux kws fuel l →
      ∀ c ∈ m, isClassChar c = true := by
  intro fuel
  induction fuel with
  | zero => intro l m hm; simp [findAllAux] at hm
  | succ n ih =>
    intro l m hm
    cases l with
    | nil => simp [findAllAux] at hm
    | cons a rest =>
      simp only [findAllAux] at hm
      cases hmk : matchKeywordsAt kws (a :: rest) with
      | some pr =>
        obtain ⟨cap, r3⟩ := pr
        rw [hmk] at hm
        have hm' : m ∈ cap :: findAllAux kws n r3 := hm
        rcases List.mem_cons.mp hm' with hm'' | hm''
        · subst hm''
          exact matchKeywordsAt_cap_classChar kws (a :: rest) m r3 hmk
        · exact ih r3 m hm''
      | none =>
        rw [hmk] at hm
        exact ih rest m hm

/-- Fuel irrelevance: any fuel at least the length of the text gives the same
match list, so `findAllCI`, which uses `l.length`, computes the result of the
unbounded left-to-right scan. -/
theorem findAllAux_fuel_irrelevant (kws : List (List Char)) :
    ∀ (fuel fuel' : Nat) (l : List Char), l.length ≤ fuel → l.length ≤ fuel' →
      findAllAux kws fuel l = findAllAux kws fuel' l := by
  intro fuel
  induction fuel with
  | zero =>
    intro fuel' l h h'
    have : l = [] := List.length_eq_zero.mp (Nat.le_zero.mp h)
    subst this
    cases fuel' <;> simp [findAllAux]
  | succ n ih =>
    intro fuel' l h h'
    cases l with
    | nil => cases fuel' <;> simp [findAllAux]
    | cons a rest =>
      cases fuel' with
      | zero => simp at h'
      | succ n' =>
        simp only [findAllAux]
        cases hmk : matchKeywordsAt kws (a :: rest) with
        | some pr =>
          obtain ⟨cap, r3⟩ := pr
          have hlt := matchKeywordsAt_rest_lt kws (a :: rest) cap r3 hmk
          simp only [List.length_cons] at h h' hlt
          show cap :: findAllAux kws n r3 = cap :: findAllAux kws n' r3
          rw [ih n' r3 (by omega) (by omega)]
        | none =>
          simp only [List.length_cons] at h h'
          show findAllAux kws n rest = findAllAux kws n' rest
          rw [ih n' rest (by omega) (by omega)]

theorem rawCaptures_mem_classChar (sql : String) (m : String)
    (hm : m ∈ rawCaptures sql) : ∀ c ∈ m.data, isClassChar c = true := by
  simp only [rawCaptures, List.mem_flatten] at hm
  obtain ⟨ms, hms, hmem⟩ := hm
  simp only [List.mem_map] at hms
  obtain ⟨kws, hkws, rfl⟩ := hms
  simp only [List.mem_map] at hmem
  obtain ⟨cs, hcs, rfl⟩ := hmem
  intro c hc
  exact findAllAux_mem_classChar kws _ _ cs hcs c hc

theorem stripEnds_mem {α : Type} (p : α → Bool) (l : List α) (a : α)
    (h : a ∈ stripEnds p l) : a ∈ l := by
  simp only [stripEnds, List.mem_reverse] at h
  have h1 := (List.dropWhile_sublist (l := (l.dropWhile p).reverse) p).mem h
  rw [List.mem_reverse] at h1
  exact (List.dropWhile_sublist p).mem h1

theorem cleanTable_mem (m : String) (c : Char) (hc : c ∈ (cleanTable m).data) :
    c ∈ m.data := by
  simp only [cleanTable] at hc
  exact stripEnds_mem _ _ _ (stripEnds_mem _ _ _ (stripEnds_mem _ _ _ (stripEnds_mem _ _ _ hc)))

theorem cleanTable_no_space (m : String)
    (hm : ∀ c ∈ m.data, isClassChar c = true) :
    strContainsChar (cleanTable m) ' ' = false := by
  simp only [strContainsChar, decide_eq_false_iff_not]
  intro hmem
  exact absurd (hm ' ' (cleanTable_mem m ' ' hmem)) (by decide)

theorem cleanTable_no_paren (m : String)
    (hm : ∀ c ∈ m.data, isClassChar c = true) :
    strStartsWithParen (cleanTable m) = false := by
  simp only [strStartsWithParen]
  cases hd : (cleanTable m).data with
  | nil => rfl
  | cons c rest =>
    have hcm : c ∈ (cleanTable m).data := by rw [hd]; exact List.mem_cons_self c rest
    have := hm c (cleanTable_mem m c hcm)
    simp only [decide_eq_false_iff_not]
    intro hcp
    subst hcp
    exact absurd this (by decide)

/-- When the cleaned capture holds no space character — which the capture
class guarantees for every real capture — `processMatch` follows the
non-truncating path and can only answer `.ok`. -/
theorem processMatch_of_no_space (m : String)
    (hns : strContainsChar (cleanTable m) ' ' = false) :
    processMatch m =
      .ok (if cleanTable m ≠ "" ∧ strUpper (cleanTable m) ∉ sqlGuardKeywords then
             (if cleanTable m ≠ "" ∧ ¬ strStartsWithParen (cleanTable m) then
                some (cleanTable m) else none)
           else none) := by
  simp only [processMatch, hns, Bool.false_eq_true, if_false]
  split
  · rfl
  · rfl

theorem processMatch_some_eq_cleanTable (m t : String)
    (hns : strContainsChar (cleanTable m) ' ' = false)
    (h : processMatch m = .ok (some t)) : t = cleanTable m := by
  rw [processMatch_of_no_space m hns] at h
  split at h
  · split at h
    · simp only [Except.ok.injEq, Option.some.injEq] at h
      exact h.symm
    · exact absurd h (by simp)
  · exact absurd h (by simp)

theorem collectTables_isOk (ms : List String)
    (hok : ∀ m ∈ ms, ∃ o, processMatch m = .ok o) :
    ∀ acc, ∃ res, collectTables acc ms = .ok res := by
  induction ms with
  | nil => intro acc; exact ⟨acc, rfl⟩
  | cons m ms ih =>
    intro acc
    obtain ⟨o, ho⟩ := hok m (List.mem_cons_self m ms)
    have hok' : ∀ m' ∈ ms, ∃ o', processMatch m' = .ok o' :=
      fun m' hm' => hok m' (List.mem_cons_of_mem m hm')
    cases o with
    | none =>
      obtain ⟨res, hres⟩ := ih hok' acc
      exact ⟨res, by simp only [collectTables, ho]; exact hres⟩
    | some t =>
      obtain ⟨res, hres⟩ := ih hok' (if t ∈ acc then acc else acc ++ [t])
      exact ⟨res, by simp only [collectTables, ho]; exact hres⟩

theorem collectTables_nodup :
    ∀ (ms acc : List String) (res : List String), acc.Nodup →
      collectTables acc ms = .ok res → res.Nodup
  | [], acc, res => by
    intro hacc h
    simp only [collectTables, Except.ok.injEq] at h
    exact h ▸ hacc
  | m :: ms, acc, res => by
    intro hacc h
    simp only [collectTables] at h
    cases hp : processMatch m with
    | error e => rw [hp] at h; exact absurd h (by simp)
    | ok o =>
      rw [hp] at h
      cases o with
      | none => exact collectTables_nodup ms acc res hacc h
      | some t =>
        have h2 : collectTables (if t ∈ acc then acc else acc ++ [t]) ms = .ok res := h
        by_cases ht : t ∈ acc
        · rw [if_pos ht] at h2
          exact collectTables_nodup ms acc res hacc h2
        · rw [if_neg ht] at h2
          have : (acc ++ [t]).Nodup := by
            simp [List.nodup_append, hacc, ht]
          exact collectTables_nodup ms (acc ++ [t]) res this h2

theorem collectTables_mem :
    ∀ (ms acc : List String) (res : List String),
      collectTables acc ms = .ok res →
      ∀ t ∈ res, t ∈ acc ∨ ∃ m ∈ ms, processMatch m = .ok (some t)
  | [], acc, res => by
    intro h t ht
    simp only [collectTables, Except.ok.injEq] at h
    exact Or.inl (h ▸ ht)
  | m :: ms, acc, res => by
    intro h t ht
    simp only [collectTables] at h
    cases hp : processMatch m with
    | error e => rw [hp] at h; exact absurd h (by simp)
    | ok o =>
      rw [hp] at h
      cases o with
      | none =>
        rcases collectTables_mem ms acc res h t ht with hin | ⟨m', hm', hpm⟩
        · exact Or.inl hin
        · exact Or.inr ⟨m', List.mem_cons_of_mem m hm', hpm⟩
      | some u =>
        have h2 : collectTables (if u ∈ acc then acc else acc ++ [u]) ms = .ok res := h
        rcases collectTables_mem ms _ res h2 t ht with hin | ⟨m', hm', hpm⟩
        · by_cases hu : u ∈ acc
          · rw [if_pos hu] at hin
            exact Or.inl hin
          · rw [if_neg hu] at hin
            rcases List.mem_append.mp hin with hin | hin
            · exact Or.inl hin
            · have : t = u := List.mem_singleton.mp hin
              subst this
              exact Or.inr ⟨m, List.mem_cons_self m ms, hp⟩
        · exact Or.inr ⟨m', List.mem_cons_of_mem m hm', hpm⟩

theorem charListLe_total : ∀ a b : List Char, charListLe a b = true ∨ charListLe b a = true
  | [], _ => Or.inl rfl
  | _ :: _, [] => Or.inr rfl
  | a :: as, b :: bs => by
    by_cases hab : a = b
    · subst hab
      rcases charListLe_total as bs with h | h
      · exact Or.inl (by simp [charListLe, h])
      · exact Or.inr (by simp [charListLe, h])
    · rcases lt_or_gt_of_ne hab with hlt | hlt
      · exact Or.inl (by simp [charListLe, hab, hlt])
      · exact Or.inr (by simp [charListLe, Ne.symm hab, hlt])

theorem charListLe_trans :
    ∀ a b c : List Char, charListLe a b = true → charListLe b c = true →
      charListLe a c = true
  | [], _, _ => by intro h1 h2; rfl
  | _ :: _, [], _ => by intro h1 h2; exact absurd h1 (by simp [charListLe])
  | _ :: _, _ :: _, [] => by intro h1 h2; exact absurd h2 (by simp [charListLe])
  | a :: as, b :: bs, c :: cs => by
    intro h1 h2
    simp only [charListLe] at h1 h2 ⊢
    by_cases hab : a = b
    · subst hab
      by_cases hbc : a = c
      · subst hbc
        simp only [if_pos rfl] at h1 h2 ⊢
        exact charListLe_trans as bs cs h1 h2
      · simp only [if_pos rfl] at h1
        simp only [if_neg hbc] at h2 ⊢
        exact h2
    · simp only [if_neg hab] at h1
      by_cases hbc : b = c
      · subst hbc
        simp only [if_neg hab] at *
        exact h1
      · simp only [if_neg hbc] at h2
        have hac : a < c := lt_trans (of_decide_eq_true h1) (of_decide_eq_true h2)
        have : a ≠ c := ne_of_lt hac
        simp [if_neg this, hac]

instance : IsTotal String strLe :=
  ⟨fun a b => charListLe_total a.data b.data⟩

instance : IsTrans String strLe :=
  ⟨fun a b c h1 h2 => charListLe_trans a.data b.data c.data h1 h2⟩

/-- Inversion of a successful extractor run. -/
theorem extract_ok_inv (s : String) (l : List String)
    (h : extract_tables_from_sql s = .ok l) :
    ∃ tables, collectTables [] (rawCaptures s) = .ok tables ∧
      l = List.insertionSort strLe tables := by
  unfold extract_tables_from_sql at h
  cases hct : collectTables [] (rawCaptures s) with
  | error e => rw [hct] at h; exact absurd h (by simp)
  | ok tables =>
    rw [hct] at h
    simp only [Except.ok.injEq] at h
    exact ⟨tables, rfl, h.symm⟩

/-- C6: for every input SQL text, the returned table list is sorted
lexicographically ascending (code-point order, as Python `sorted`) and
contains no duplicates; a table referenced in both a `FROM` clause and a
later `JOIN` clause appears exactly once. -/
theorem C6_sorted_nodup :
    (∀ (s : String) (l : List String), extract_tables_from_sql s = .ok l →
      l.Sorted strLe ∧ l.Nodup) ∧
    extract_tables_from_sql "SELECT o.x FROM orders o JOIN orders b ON o.id = b.id" =
      .ok ["orders"] := by
  constructor
  · intro s l h
    obtain ⟨tables, hct, rfl⟩ := extract_ok_inv s l h
    refine ⟨List.sorted_insertionSort strLe tables, ?_⟩
    exact (List.perm_insertionSort strLe tables).symm.nodup
      (collectTables_nodup _ [] tables List.nodup_nil hct)
  · rfl

/-- Witness for C6 at a concrete input: the dedup example evaluates and the
sortedness/nodup conclusions hold for its output. -/
theorem C6_sorted_nodup_witness :
    (["orders"] : List String).Sorted strLe ∧ (["orders"] : List String).Nodup :=
  C6_sorted_nodup.1 "SELECT o.x FROM orders o JOIN orders b ON o.id = b.id"
    ["orders"] C6_sorted_nodup.2

/-- C7 counterexample: on `"SELECT * FROM orders o WHERE o.id=1"` the only
raw capture produced by the six patterns is `"orders"`; no capture cleans up
to the token `WHERE`, so the keyword guard is never invoked on `WHERE` —
refuting the mechanism asserted by the claim (`WHERE` is never captured in
the first place, rather than being captured and then rejected). -/
theorem C7_counterexample :
    rawCaptures "SELECT * FROM orders o WHERE o.id=1" = ["orders"] ∧
    "WHERE" ∉ (rawCaptures "SELECT * FROM orders o WHERE o.id=1").map
      (fun m => strUpper (cleanTable m)) := by
  refine ⟨rfl, ?_⟩
  decide

/-- C7 amended: the extractor returns exactly `["orders"]`; the alias token
`o` is never captured, and `WHERE` never appears in the output because no
anchored pattern captures it (the `FROM` capture stops at the whitespace
after `orders`). -/
theorem C7_amended :
    extract_tables_from_sql "SELECT * FROM orders o WHERE o.id=1" = .ok ["orders"] ∧
    "o" ∉ rawCaptures "SELECT * FROM orders o WHERE o.id=1" := by
  refine ⟨rfl, ?_⟩
  decide

/-- C8: the extractor is total — for every input string it returns a list
and never reaches the one potentially-raising operation (`table.split()[0]`,
modelled as the `Except.error` path); the empty input yields the empty
list. -/
theorem C8_extractor_total :
    (∀ s : String, ∃ l : List String, extract_tables_from_sql s = .ok l) ∧
    extract_tables_from_sql "" = .ok [] := by
  constructor
  · intro s
    have hok : ∀ m ∈ rawCaptures s, ∃ o, processMatch m = .ok o := by
      intro m hm
      have hclass := rawCaptures_mem_classChar s m hm
      have hns := cleanTable_no_space m hclass
      rw [processMatch_of_no_space m hns]
      exact ⟨_, rfl⟩
    obtain ⟨res, hres⟩ := collectTables_isOk (rawCaptures s) hok []
    refine ⟨List.insertionSort strLe res, ?_⟩
    unfold extract_tables_from_sql
    rw [hres]
  · rfl

/-- C10: every string the extractor returns contains no space character and
does not start with `(`; moreover every raw capture, once cleaned, already
fails both the embedded-space test (so the truncation branch is unreachable)
and the leading-parenthesis test (so the rejection branch is unreachable),
for every input. -/
theorem C10_no_space_no_paren (s t : String) (l : List String)
    (hok : extract_tables_from_sql s = .ok l) (ht : t ∈ l) :
    (strContainsChar t ' ' = false ∧ strStartsWithParen t = false) ∧
    (∀ m ∈ rawCaptures s, strContainsChar (cleanTable m) ' ' = false ∧
      strStartsWithParen (cleanTable m) = false) := by
  have hprops : ∀ m ∈ rawCaptures s, strContainsChar (cleanTable m) ' ' = false ∧
      strStartsWithParen (cleanTable m) = false := by
    intro m hm
    have hclass := rawCaptures_mem_classChar s m hm
    exact ⟨cleanTable_no_space m hclass, cleanTable_no_paren m hclass⟩
  refine ⟨?_, hprops⟩
  obtain ⟨tables, hct, rfl⟩ := extract_ok_inv s l hok
  have ht' : t ∈ tables := (List.perm_insertionSort strLe tables).mem_iff.mp ht
  rcases collectTables_mem (rawCaptures s) [] tables hct t ht' with hin | ⟨m, hm, hpm⟩
  · exact absurd hin (List.not_mem_nil t)
  · have hclass := rawCaptures_mem_classChar s m hm
    have hns := cleanTable_no_space m hclass
    have heq := processMatch_some_eq_cleanTable m t hns hpm
    subst heq
    exact ⟨hns, cleanTable_no_paren m hclass⟩

/-- Witness for C10 at a concrete input. -/
theorem C10_no_space_no_paren_witness :
    (strContainsChar "orders" ' ' = false ∧ strStartsWithParen "orders" = false) ∧
    (∀ m ∈ rawCaptures "SELECT * FROM orders o WHERE o.id=1",
      strContainsChar (cleanTable m) ' ' = false ∧
      strStartsWithParen (cleanTable m) = false) :=
  C10_no_space_no_paren "SELECT * FROM orders o WHERE o.id=1" "orders" ["orders"]
    rfl (by decide)

/-- C4 counterexample: the extraction logic of `app.py` (the cited lines)
does not return the free text for the shape `{"choices": [{"text": ...}]}`:
it falls through to the `json.dumps` serialization instead of returning
`"hello"`. -/
theorem C4_counterexample :
    extractCortexApp choicesTextResponse = .jstr (jsonDumps 0 choicesTextResponse) ∧
    jsonDumps 0 choicesTextResponse ≠ "hello" := by
  refine ⟨rfl, ?_⟩
  decide

/-- C4 amended: the `app_old.py` extraction returns the free text for all
five shapes (bare string; `choices[0].message.content`; `choices[0].text`;
top-level `content`; top-level `text`) and serializes the whole response on
any other object shape; the `app.py` extraction supports only the subset
{bare string, `choices[0].message.content`, top-level `content`} before its
serialization fallback. -/
theorem C4_amended (s : String) (rest : JArr) (v : JVal) :
    extractCortexAppOld (.jstr s) = .jstr s ∧
    extractCortexAppOld (.jobj (.ocons "choices" (.jarr (.acons
        (.jobj (.ocons "message" (.jobj (.ocons "content" (.jstr s) .onil)) .onil))
        rest)) .onil)) = .jstr s ∧
    extractCortexAppOld (.jobj (.ocons "choices" (.jarr (.acons
        (.jobj (.ocons "text" (.jstr s) .onil)) rest)) .onil)) = .jstr s ∧
    extractCortexAppOld (.jobj (.ocons "content" (.jstr s) .onil)) = .jstr s ∧
    extractCortexAppOld (.jobj (.ocons "text" (.jstr s) .onil)) = .jstr s ∧
    extractCortexAppOld (.jobj (.ocons "suggestions" v .onil)) =
      .jstr (jsonDumps 0 (.jobj (.ocons "suggestions" v .onil))) ∧
    extractCortexApp (.jstr s) = .jstr s ∧
    extractCortexApp (.jobj (.ocons "choices" (.jarr (.acons
        (.jobj (.ocons "message" (.jobj (.ocons "content" (.jstr s) .onil)) .onil))
        rest)) .onil)) = .jstr s ∧
    extractCortexApp (.jobj (.ocons "content" (.jstr s) .onil)) = .jstr s :=
  ⟨rfl, rfl, rfl, rfl, rfl, rfl, rfl, rfl, rfl⟩

/-- C9: the Optimization Prompt Builder is a pure function of its three
arguments — two calls with identical `(query_text, execution_metadata,
tables_metadata)` inputs produce byte-identical strings. -/
theorem C9_prompt_deterministic (q1 q2 : String) (m1 m2 t1 t2 : JVal)
    (hq : q1 = q2) (hm : m1 = m2) (ht : t1 = t2) :
    build_optimization_prompt q1 m1 t1 = build_optimization_prompt q2 m2 t2 := by
  rw [hq, hm, ht]

/-- Witness for C9 at a concrete input. -/
theorem C9_prompt_deterministic_witness :
    build_optimization_prompt "SELECT 1" (.jobj .onil) (.jobj .onil) =
      build_optimization_prompt "SELECT 1" (.jobj .onil) (.jobj .onil) :=
  C9_prompt_deterministic "SELECT 1" "SELECT 1" (.jobj .onil) (.jobj .onil)
    (.jobj .onil) (.jobj .onil) rfl rfl rfl

/-! ### Section C': lemmas about the Cost Aggregator -/

/-- Dividing two integer casts by the same positive rational preserves and
reflects order. -/
theorem intCast_div_le_div_iff (a b : Int) (c : ℚ) (hc : 0 < c) :
    ((a : ℚ) / c ≤ (b : ℚ) / c) ↔ a ≤ b := by
  rw [div_le_div_iff₀ hc hc]
  constructor
  · intro h
    have := le_of_mul_le_mul_right h hc
    exact_mod_cast this
  · intro h
    exact mul_le_mul_of_nonneg_right (by exact_mod_cast h) (le_of_lt hc)

/-- The integer sort key of `qoAggregate` orders groups exactly as
`ORDER BY cost_factor DESC` does: `cost_factor` is the product divided by
the fixed positive constant 1 440 000. -/
theorem qoOrder_iff_cost_factor (g1 g2 : QoGroup) :
    qoOrder g1 g2 ↔
      cost_factor g2.total_elapsed_time g2.warehouse_size ≤
        cost_factor g1.total_elapsed_time g1.warehouse_size := by
  have key : ∀ (t : Int) (s : String),
      cost_factor t s = ((t * sizeWeight s : Int) : ℚ) / 1440000 := by
    intro t s
    simp only [cost_factor]
    push_cast
    ring
  simp only [qoOrder, qoOrderKey, key]
  exact (intCast_div_le_div_iff _ _ _ (show (0:ℚ) < 1440000 by norm_num)).symm

/-- The integer sort key of `appAggregate` orders groups exactly as
`ORDER BY duration_seconds DESC` does. -/
theorem appOrder_iff_duration_seconds (g1 g2 : AppGroup) :
    appOrder g1 g2 ↔
      duration_seconds g2.total_elapsed_time ≤ duration_seconds g1.total_elapsed_time := by
  simp only [appOrder, appOrderKey, duration_seconds]
  exact (intCast_div_le_div_iff _ _ _ (show (0:ℚ) < 1000 by norm_num)).symm

theorem maxElapsedFrom_ge_init :
    ∀ (rs : List ExecRecord) (m : Int), m ≤ maxElapsedFrom m rs
  | [], m => le_refl m
  | r :: rs, m =>
    le_trans (le_max_left m r.total_elapsed_time) (maxElapsedFrom_ge_init rs _)

/-- `pickSample` returns the first record (in input order) attaining the
maximum `total_elapsed_time` of `best :: rs`. -/
theorem pickSample_eq_head_filter :
    ∀ (rs : List ExecRecord) (best : ExecRecord),
      some (pickSample best rs) =
        ((best :: rs).filter
          (fun r => decide (r.total_elapsed_time =
            maxElapsedFrom best.total_elapsed_time rs))).head? := by
  intro rs
  induction rs with
  | nil =>
    intro best
    simp [pickSample, maxElapsedFrom]
  | cons r rs ih =>
    intro best
    by_cases hgt : r.total_elapsed_time > best.total_elapsed_time
    · have hstep : pickSample best (r :: rs) = pickSample r rs := by
        simp [pickSample, hgt]
      have hmax : maxElapsedFrom best.total_elapsed_time (r :: rs)
          = maxElapsedFrom r.total_elapsed_time rs := by
        simp [maxElapsedFrom, max_eq_right (le_of_lt hgt)]
      rw [hstep, hmax, ih r]
      have h1 : r.total_elapsed_time ≤ maxElapsedFrom r.total_elapsed_time rs :=
        maxElapsedFrom_ge_init rs _
      have hbne : ¬ (best.total_elapsed_time =
          maxElapsedFrom r.total_elapsed_time rs) := by omega
      simp [List.filter_cons, hbne]
    · have hstep : pickSample best (r :: rs) = pickSample best rs := by
        simp [pickSample, hgt]
      have hle : r.total_elapsed_time ≤ best.total_elapsed_time := le_of_not_lt hgt
      have hmax : maxElapsedFrom best.total_elapsed_time (r :: rs)
          = maxElapsedFrom best.total_elapsed_time rs := by
        simp [maxElapsedFrom, max_eq_left hle]
      rw [hstep, hmax, ih best]
      by_cases hbM : best.total_elapsed_time = maxElapsedFrom best.total_elapsed_time rs
      · have hb : decide (best.total_elapsed_time =
            maxElapsedFrom best.total_elapsed_time rs) = true := decide_eq_true hbM
        simp [List.filter_cons, hb]
      · have h1 : best.total_elapsed_time ≤ maxElapsedFrom best.total_elapsed_time rs :=
          maxElapsedFrom_ge_init rs _
        have hrne : ¬ (r.total_elapsed_time =
            maxElapsedFrom best.total_elapsed_time rs) := by omega
        simp [List.filter_cons, hbM, hrne]

/-- The representative of a record list is the first record with the
maximal `total_elapsed_time`. -/
theorem sampleRecord_eq_head_filter (l : List ExecRecord) :
    sampleRecord l =
      (l.filter (fun r => decide (r.total_elapsed_time = maxElapsedOf l))).head? := by
  cases l with
  | nil => rfl
  | cons a rs =>
    simp only [sampleRecord, maxElapsedOf]
    exact pickSample_eq_head_filter rs a

theorem mem_enumFrom_snd {α : Type} :
    ∀ (l : List α) (n : Nat) (p : Nat × α), p ∈ List.enumFrom n l → p.2 ∈ l
  | [], n, p => by intro h; simp [List.enumFrom] at h
  | a :: t, n, p => by
    intro h
    simp only [List.enumFrom] at h
    rcases List.mem_cons.mp h with h | h
    · subst h; exact List.mem_cons_self _ _
    · exact List.mem_cons_of_mem a (mem_enumFrom_snd t (n + 1) p h)

theorem mem_enum_snd {α : Type} (l : List α) (p : Nat × α) (h : p ∈ List.enum l) :
    p.2 ∈ l :=
  mem_enumFrom_snd l 0 p h

/-- Inversion of `appAggregate` membership: every produced group is a
group built from one of the deduplicated keys, with some rank filled in. -/
theorem mem_appAggregate (records : List ExecRecord) (cutoff : Int) (g : AppGroup)
    (hg : g ∈ appAggregate records cutoff) :
    ∃ k, k ∈ ((appFilter records cutoff).map appKey).dedup ∧ ∃ n : Nat,
      g = { appBuildGroup records cutoff k with rank := n } := by
  simp only [appAggregate] at hg
  have h1 := (List.perm_insertionSort appOrder _).mem_iff.mp hg
  have h2 := List.mem_of_mem_filter h1
  simp only [assignRanks, List.mem_map] at h2
  obtain ⟨p, hp, hpe⟩ := h2
  have h3 := mem_enum_snd _ p hp
  simp only [List.mem_map] at h3
  obtain ⟨k, hk, hke⟩ := h3
  exact ⟨k, hk, rowNumberDesc (fun g => g.warehouse_name)
    (fun g => g.total_elapsed_time) _ p.1 p.2, by rw [← hpe, ← hke]⟩

/-- Inversion of `qoAggregate` membership. -/
theorem mem_qoAggregate (records : List ExecRecord) (cutoff : Int) (g : QoGroup)
    (hg : g ∈ qoAggregate records cutoff) :
    ∃ k, k ∈ ((qoFilter records cutoff).map qoKey).dedup ∧ ∃ n : Nat,
      g = { qoBuildGroup records cutoff k with rank := n } := by
  simp only [qoAggregate] at hg
  have h1 := (List.perm_insertionSort qoOrder _).mem_iff.mp hg
  have h2 := List.mem_of_mem_filter h1
  simp only [assignRanks, List.mem_map] at h2
  obtain ⟨p, hp, hpe⟩ := h2
  have h3 := mem_enum_snd _ p hp
  simp only [List.mem_map] at h3
  obtain ⟨k, hk, hke⟩ := h3
  exact ⟨k, hk, rowNumberDesc (fun g => g.warehouse_name)
    (fun g => g.total_elapsed_time) _ p.1 p.2, by rw [← hpe, ← hke]⟩

/-- C1: at `total_elapsed_time = 7_200_000` ms and `warehouse_size =
'Large'`, the `cost_factor` the cited code computes
(`/1000/60/24 × weight`) is 40, not the 16 the hours-based formula of the
claim gives; the column the code aliases `duration_hours` evaluates to 5,
not 2 hours, while the `app_old.py` variant (`/1000/60/60`) matches the
claimed formula exactly. -/
theorem C1_cost_model :
    cost_factor 7200000 "Large" = 40 ∧
    specCostFactor 7200000 "Large" = 16 ∧
    cost_factor 7200000 "Large" ≠ specCostFactor 7200000 "Large" ∧
    cost_factor_old 7200000 "Large" = 16 ∧
    cost_factor_old 7200000 "Large" = specCostFactor 7200000 "Large" ∧
    duration_hours 7200000 = 5 ∧
    duration_hours_old 7200000 = 2 := by
  have hw : sizeWeight "Large" = 8 := rfl
  refine ⟨?_, ?_, ?_, ?_, ?_, ?_, ?_⟩ <;>
    simp only [cost_factor, specCostFactor, cost_factor_old, duration_hours,
      duration_hours_old, hw] <;> norm_num

/-- C2 counterexample: two records sharing every `query_optimizer.py`
grouping column form a single group whose reported `sample_query_id` is the
lexicographically greatest id `"QB"` (`max(query_id)`), while the record
with the maximum `total_elapsed_time` in the group is the one with id
`"QA"` — refuting "the sample is the record with the maximum
total_elapsed_time" for the `query_optimizer.py` aggregator. -/
theorem C2_counterexample :
    (qoAggregate [cxA, cxB] 0).map (fun g => g.sample_query_id) = ["QB"] ∧
    qoMembers [cxA, cxB] 0 (qoKey cxA) = [cxA, cxB] ∧
    (sampleRecord [cxA, cxB]).map (fun r => r.query_id) = some "QA" ∧
    ("QB" : String) ≠ "QA" := by
  decide

/-- C2 amended: in the `app.py` aggregator, every produced group's
`sample_query_id` identifies the record with the maximum
`total_elapsed_time` — ties resolved to the first record in input order —
within the group's `(warehouse_name, user_name)` history partition (which
contains all the group's records, but is keyed without `warehouse_size`);
in `query_optimizer.py` the sample id is instead `max(query_id)`. -/
theorem C2_amended (records : List ExecRecord) (cutoff : Int) (g : AppGroup)
    (hg : g ∈ appAggregate records cutoff) :
    g.sample_query_id =
      ((appPartition records cutoff g.warehouse_name g.user_name).filter
        (fun r => decide (r.total_elapsed_time =
          maxElapsedOf (appPartition records cutoff g.warehouse_name g.user_name)))).head?.map
        (fun r => r.query_id) ∧
    ∀ r ∈ appMembers records cutoff (g.warehouse_name, g.warehouse_size, g.user_name),
      r ∈ appPartition records cutoff g.warehouse_name g.user_name := by
  obtain ⟨k, hk, n, rfl⟩ := mem_appAggregate records cutoff g hg
  constructor
  · show (appBuildGroup records cutoff k).sample_query_id = _
    simp only [appBuildGroup]
    rw [sampleRecord_eq_head_filter]
  · intro r hr
    simp only [appMembers, List.mem_filter, decide_eq_true_eq] at hr
    obtain ⟨hf, hkey⟩ := hr
    have hkey' : appKey r = k := hkey
    simp only [appFilter, List.mem_filter, Bool.and_eq_true, decide_eq_true_eq] at hf
    obtain ⟨hrec, ⟨hsome, hstat⟩, hstart⟩ := hf
    simp only [appPartition, List.mem_filter, Bool.and_eq_true, decide_eq_true_eq]
    refine ⟨hrec, ⟨⟨?_, ?_⟩, hstat⟩, hstart⟩
    · show r.warehouse_name = k.1
      rw [← hkey']
      rfl
    · show r.user_name = k.2.2
      rw [← hkey']
      rfl

/-- Witness for C2 at a concrete run. -/
theorem C2_amended_witness :
    w2g.sample_query_id =
      ((appPartition [w2r] 0 w2g.warehouse_name w2g.user_name).filter
        (fun r => decide (r.total_elapsed_time =
          maxElapsedOf (appPartition [w2r] 0 w2g.warehouse_name w2g.user_name)))).head?.map
        (fun r => r.query_id) ∧
    ∀ r ∈ appMembers [w2r] 0 (w2g.warehouse_name, w2g.warehouse_size, w2g.user_name),
      r ∈ appPartition [w2r] 0 w2g.warehouse_name w2g.user_name :=
  C2_amended [w2r] 0 w2g (by decide)

/-- C3 counterexample: two records with identical `warehouse_name`,
`user_name`, `database_name` and `schema_name` but different
`warehouse_size` land in two distinct groups of the `app.py` aggregator,
and two records differing only in `query_text` land in two distinct groups
of the `query_optimizer.py` aggregator — so fields outside the claimed key
tuples participate in the grouping. -/
theorem C3_counterexample :
    (appAggregate [cxA, cxSizeSplit] 0).length = 2 ∧
    cxA.warehouse_name = cxSizeSplit.warehouse_name ∧
    cxA.user_name = cxSizeSplit.user_name ∧
    cxA.database_name = cxSizeSplit.database_name ∧
    cxA.schema_name = cxSizeSplit.schema_name ∧
    cxA.warehouse_size ≠ cxSizeSplit.warehouse_size ∧
    (qoAggregate [cxA, cxTextSplit] 0).length = 2 ∧
    cxA.warehouse_name = cxTextSplit.warehouse_name ∧
    cxA.user_name = cxTextSplit.user_name ∧
    cxA.database_name = cxTextSplit.database_name ∧
    cxA.schema_name = cxTextSplit.schema_name ∧
    cxA.warehouse_size = cxTextSplit.warehouse_size ∧
    cxA.query_text ≠ cxTextSplit.query_text := by
  decide

/-- C3 amended: the `app.py` aggregator groups by exact equality on
`(warehouse_name, warehouse_size, user_name)`: a produced group's member
set is exactly the filtered records whose key tuple equals the group's,
and the group's `cnt` and `total_elapsed_time` are computed over exactly
that set.  (`query_optimizer.py` additionally keys by `database_name`,
`schema_name` and `query_text` through `GROUP BY ALL`.) -/
theorem C3_amended (records : List ExecRecord) (cutoff : Int) (g : AppGroup)
    (hg : g ∈ appAggregate records cutoff) :
    (∀ r, r ∈ appMembers records cutoff (g.warehouse_name, g.warehouse_size, g.user_name) ↔
      (r ∈ appFilter records cutoff ∧
        r.warehouse_name = g.warehouse_name ∧ r.warehouse_size = g.warehouse_size ∧
        r.user_name = g.user_name)) ∧
    g.cnt = (appMembers records cutoff
      (g.warehouse_name, g.warehouse_size, g.user_name)).length ∧
    g.total_elapsed_time = sumElapsed (appMembers records cutoff
      (g.warehouse_name, g.warehouse_size, g.user_name)) := by
  obtain ⟨k, hk, n, rfl⟩ := mem_appAggregate records cutoff g hg
  refine ⟨?_, rfl, rfl⟩
  intro r
  simp only [appMembers, List.mem_filter, decide_eq_true_eq, appKey, Prod.mk.injEq,
    and_assoc]

/-- Witness for C3 at a concrete run. -/
theorem C3_amended_witness :
    (∀ r, r ∈ appMembers [w2r] 0 (w2g.warehouse_name, w2g.warehouse_size, w2g.user_name) ↔
      (r ∈ appFilter [w2r] 0 ∧
        r.warehouse_name = w2g.warehouse_name ∧ r.warehouse_size = w2g.warehouse_size ∧
        r.user_name = w2g.user_name)) ∧
    w2g.cnt = (appMembers [w2r] 0
      (w2g.warehouse_name, w2g.warehouse_size, w2g.user_name)).length ∧
    w2g.total_elapsed_time = sumElapsed (appMembers [w2r] 0
      (w2g.warehouse_name, w2g.warehouse_size, w2g.user_name)) :=
  C3_amended [w2r] 0 w2g (by decide)

/-! ### Section D': the Metadata Assembler claim -/

/-- C5: per-table metadata assembly is total and isolated.  For any oracle
and table list: every table — whatever its name, including names with more
than two dot-separated parts — contributes exactly one record to the
assembled output; a stats-lookup failure after a successful columns lookup
leaves the partial `columns` data in place and records the error message;
and the record of a table depends only on the oracle's answers at that
table's resolved `(database?, schema?, table)` triple, so failures wired to
other tables cannot change it. -/
theorem C5_metadata_isolation (o : CatalogOracle) (tables : List String)
    (t : String) (ht : t ∈ tables) (e : String) (hconn : o.connected = true) :
    (t, get_table_metadata o t none none) ∈ assembleMetadata o tables ∧
    (assembleMetadata o tables).length = tables.length ∧
    (∀ d s tb cols, resolveTableName t none none = (d, s, tb) →
      o.columnsQ d s tb = .ok cols → o.statsQ d s tb = .error e →
      get_table_metadata o t none none =
        { columns := some cols, statistics := none, constraints := none,
          error := some e }) ∧
    (∀ o2 : CatalogOracle, o2.connected = true →
      (∀ d s tb, resolveTableName t none none = (d, s, tb) →
        o2.columnsQ d s tb = o.columnsQ d s tb ∧
        o2.statsQ d s tb = o.statsQ d s tb ∧
        o2.keysQ d s tb = o.keysQ d s tb) →
      get_table_metadata o2 t none none = get_table_metadata o t none none) := by
  refine ⟨?_, ?_, ?_, ?_⟩
  · simp only [assembleMetadata, List.mem_map]
    exact ⟨t, ht, rfl⟩
  · simp [assembleMetadata]
  · intro d s tb cols hres hcols hstats
    simp only [get_table_metadata, hconn]
    rw [hres]
    simp only [hcols, hstats]
    rfl
  · intro o2 hconn2 hagree
    obtain ⟨h1, h2, h3⟩ := hagree (resolveTableName t none none).1
      (resolveTableName t none none).2.1 (resolveTableName t none none).2.2 rfl
    simp only [get_table_metadata, hconn, hconn2, h1, h2, h3]

/-- Witness for C5: a two-table run with a four-part table name and an
oracle whose stats lookup always fails. -/
theorem C5_metadata_isolation_witness :
    ((("a.b.c.d" : String),
        get_table_metadata
          { connected := true, columnsQ := fun _ _ _ => .ok [],
            statsQ := fun _ _ _ => .error "boom", keysQ := fun _ _ _ => .ok [] }
          "a.b.c.d" none none) ∈
      assembleMetadata
        { connected := true, columnsQ := fun _ _ _ => .ok [],
          statsQ := fun _ _ _ => .error "boom", keysQ := fun _ _ _ => .ok [] }
        ["a.b.c.d", "orders"]) ∧
    (assembleMetadata
        { connected := true, columnsQ := fun _ _ _ => .ok [],
          statsQ := fun _ _ _ => .error "boom", keysQ := fun _ _ _ => .ok [] }
        ["a.b.c.d", "orders"]).length = (["a.b.c.d", "orders"] : List String).length ∧
    (∀ d s tb cols, resolveTableName "a.b.c.d" none none = (d, s, tb) →
      (fun _ _ _ => (.ok [] : Except String (List CatalogRow))) d s tb = .ok cols →
      (fun _ _ _ => (.error "boom" : Except String (List CatalogRow))) d s tb = .error "boom" →
      get_table_metadata
        { connected := true, columnsQ := fun _ _ _ => .ok [],
          statsQ := fun _ _ _ => .error "boom", keysQ := fun _ _ _ => .ok [] }
        "a.b.c.d" none none =
        { columns := some cols, statistics := none, constraints := none,
          error := some "boom" }) ∧
    (∀ o2 : CatalogOracle, o2.connected = true →
      (∀ d s tb, resolveTableName "a.b.c.d" none none = (d, s, tb) →
        o2.columnsQ d s tb = (fun _ _ _ => (.ok [] : Except String (List CatalogRow))) d s tb ∧
        o2.statsQ d s tb = (fun _ _ _ => (.error "boom" : Except String (List CatalogRow))) d s tb ∧
        o2.keysQ d s tb = (fun _ _ _ => (.ok [] : Except String (List CatalogRow))) d s tb) →
      get_table_metadata o2 "a.b.c.d" none none =
        get_table_metadata
          { connected := true, columnsQ := fun _ _ _ => .ok [],
            statsQ := fun _ _ _ => .error "boom", keysQ := fun _ _ _ => .ok [] }
          "a.b.c.d" none none) :=
  C5_metadata_isolation
    { connected := true, columnsQ := fun _ _ _ => .ok [],
      statsQ := fun _ _ _ => .error "boom", keysQ := fun _ _ _ => .ok [] }
    ["a.b.c.d", "orders"] "a.b.c.d" (by decide) "boom" rfl
